import Mathlib

/-!
Shallow embedding of `src/utils/functions.py` (`generate_df_by_time_section`),
the temporal regularization / multi-granularity aggregation engine for the
UK energy-use time series.

Modelling conventions:
* pandas floats are modelled as `ℚ` (exact arithmetic, no floating point);
* missing values (`NaN`) appearing in synthesized hourly slots are `Option ℚ`;
* the CSV read is an external collaborator, so the raw table is a parameter
  (`df_original : List Row`);
* pandas `groupby(key, as_index=False).mean()` returns one row per distinct
  key, keys sorted ascending, value columns averaged over the group;
* pandas `DataFrame.interpolate(method="linear", axis="index")` (default
  `limit_direction="forward"`) fills an interior `NaN` by positional linear
  interpolation between the nearest preceding and following known values,
  fills a trailing `NaN` with the last known value, and leaves leading `NaN`
  untouched;
* `tqdm.progress_map` / `progress_apply` compute the same values as
  `map` / `apply` (the progress bar is I/O).
-/

attribute [local semireducible] Rat.add Rat.mul Rat.inv Rat.sub

namespace EnergyTS

/-- The five value columns of the dataset: `coal, nuclear, wind, hydro, solar`. -/
inductive Field where
  | coal | nuclear | wind | hydro | solar
deriving DecidableEq, Fintype, Repr

/-- A naive timestamp as stored in the `timestamp` column. -/
structure Timestamp where
  year : Nat
  month : Nat
  day : Nat
  hour : Nat
  minute : Nat
  second : Nat
deriving DecidableEq, Repr

/-- Mixed-radix encoding of a timestamp; strictly monotone in time (and
injective) on valid timestamps. Used to model chronological comparison of
pandas timestamps. -/
def tsKey (t : Timestamp) : Nat :=
  ((((t.year * 13 + t.month) * 32 + t.day) * 25 + t.hour) * 61 + t.minute) * 61 + t.second

/-- A well-formed (parseable) timestamp: the "well-formed input" assumption of
the spec. -/
def ValidTs (t : Timestamp) : Prop :=
  1 ≤ t.year ∧ 1 ≤ t.month ∧ t.month ≤ 12 ∧ 1 ≤ t.day ∧ t.day ≤ 31 ∧
    t.hour < 24 ∧ t.minute < 60 ∧ t.second < 60

instance : DecidablePred ValidTs := fun t => by unfold ValidTs; infer_instance

/-- One raw observation (a row of the original CSV). -/
structure Row where
  timestamp : Timestamp
  vals : Field → ℚ

instance : DecidableEq (Field → ℚ) := inferInstance

instance : DecidableEq Row := fun a b =>
  decidable_of_iff (a.timestamp = b.timestamp ∧ a.vals = b.vals)
    (by cases a; cases b; simp)

/-- One row of the regularized hourly table; the value columns may hold `NaN`
(for the synthesized missing hours before interpolation). -/
structure Slot where
  timestamp : Timestamp
  vals : Field → Option ℚ

instance : DecidableEq (Field → Option ℚ) := inferInstance

instance : DecidableEq Slot := fun a b =>
  decidable_of_iff (a.timestamp = b.timestamp ∧ a.vals = b.vals)
    (by cases a; cases b; simp)

/-- One row of the week-granularity table: `timestamp, year, week` plus the
value columns. -/
structure WeekRow where
  timestamp : Timestamp
  year : Int
  week : Nat
  vals : Field → ℚ

instance : DecidableEq WeekRow := fun a b =>
  decidable_of_iff
    (a.timestamp = b.timestamp ∧ a.year = b.year ∧ a.week = b.week ∧ a.vals = b.vals)
    (by cases a; cases b; simp)

/-- `timestamp.replace(second=0, minute=0)`. -/
def truncHour (t : Timestamp) : Timestamp := { t with minute := 0, second := 0 }

/-- `timestamp.replace(second=0, minute=0, hour=0)` (also the value of the
helper column `timestamp_day`). -/
def truncDay (t : Timestamp) : Timestamp :=
  { t with hour := 0, minute := 0, second := 0 }

/-- `timestamp.replace(second=0, minute=0, hour=0, day=1)`. -/
def truncMonth (t : Timestamp) : Timestamp :=
  { t with day := 1, hour := 0, minute := 0, second := 0 }

/-- `timestamp.replace(second=0, minute=0, hour=0, day=1, month=1)`. -/
def truncYear (t : Timestamp) : Timestamp :=
  { t with month := 1, day := 1, hour := 0, minute := 0, second := 0 }

/-- `datetime(day.year, day.month, day.day, hour, 0, 0)` for a midnight
timestamp `d`. -/
def setHour (d : Timestamp) (h : Nat) : Timestamp := { d with hour := h }

/-- `df.drop_duplicates()`: full-row equality, first occurrence kept (each
row is kept, and its later duplicates are dropped). -/
def dropDuplicates : List Row → List Row
  | [] => []
  | r :: rs => r :: (dropDuplicates rs).filter (fun x => x ≠ r)

/-- `tqdm.progress_map f` computes the same list as `map f` (the progress bar
is pure I/O). -/
def progressMap (f : α → β) (l : List α) : List β := l.map f

/-- The code applies `progress_map` when `verbose` and `map` otherwise. -/
def mapV (verbose : Bool) (f : α → β) (l : List α) : List β :=
  if verbose then progressMap f l else l.map f

/-- Arithmetic mean of a list of rationals (pandas `mean`). -/
def mean (l : List ℚ) : ℚ := l.sum / l.length

/-- Chronological comparison of the `timestamp` keys. -/
def tsLe (a b : Timestamp) : Prop := tsKey a ≤ tsKey b

instance : DecidableRel tsLe := fun a b => by unfold tsLe; infer_instance
instance : IsTotal Timestamp tsLe := ⟨fun a b => Nat.le_total _ _⟩
instance : IsTrans Timestamp tsLe := ⟨fun _ _ _ => Nat.le_trans⟩

/-- Row comparison by timestamp, for `sort_values(by="timestamp")`. -/
def slotLe (a b : Slot) : Prop := tsKey a.timestamp ≤ tsKey b.timestamp

instance : DecidableRel slotLe := fun a b => by unfold slotLe; infer_instance
instance : IsTotal Slot slotLe := ⟨fun a b => Nat.le_total _ _⟩
instance : IsTrans Slot slotLe := ⟨fun _ _ _ => Nat.le_trans⟩

/-- Sorted list of the distinct values of the `timestamp` column: the group
keys of `groupby(["timestamp"], as_index=False)` (pandas sorts group keys
ascending). -/
def groupKeys (rows : List Row) : List Timestamp :=
  List.insertionSort tsLe ((rows.map (fun r => r.timestamp)).dedup)

/-- All rows sharing the group key `k`. -/
def groupRows (rows : List Row) (k : Timestamp) : List Row :=
  rows.filter (fun r => r.timestamp = k)

/-- `df.groupby(["timestamp"], as_index=False).mean()`: one row per distinct
timestamp (sorted ascending), value columns averaged per group. -/
def groupbyMeanTs (rows : List Row) : List Row :=
  (groupKeys rows).map
    (fun k => ⟨k, fun f => mean ((groupRows rows k).map (fun r => r.vals f))⟩)

/-- A grouped row viewed as an hourly slot (all value columns present). -/
def rowToSlot (r : Row) : Slot := ⟨r.timestamp, fun f => some (r.vals f)⟩

/-- `df_result.loc[df_result["timestamp_day"] == day]`: the slots of calendar
day `d`. -/
def hoursOfDay (slots : List Slot) (d : Timestamp) : List Slot :=
  slots.filter (fun s => truncDay s.timestamp = d)

/-- The inner loop of the missing-hour scan: for a day with fewer than 24
rows, every hour `0..23` that no slot of the day carries. -/
def missingHoursOfDay (slots : List Slot) (d : Timestamp) : List Timestamp :=
  if (hoursOfDay slots d).length = 24 then []
  else
    (List.range 24).filterMap
      (fun h =>
        if (hoursOfDay slots d).any (fun s => s.timestamp.hour = h) then none
        else some (setHour d h))

/-- `df_result["timestamp_day"].unique()`: the distinct recording days (the
iteration order is irrelevant: the table is sorted afterwards). -/
def daysList (slots : List Slot) : List Timestamp :=
  (slots.map (fun s => truncDay s.timestamp)).dedup

/-- `df_missing_hours`: one all-missing slot per missing hour of each
recording day. -/
def missingSlots (slots : List Slot) : List Slot :=
  (daysList slots).flatMap
    (fun d => (missingHoursOfDay slots d).map (fun t => ⟨t, fun _ => none⟩))

/-- `sort_values(by="timestamp")`. -/
def sortSlots (l : List Slot) : List Slot := List.insertionSort slotLe l

/-- Index of the last non-missing entry of the column strictly before
position `i`, with its value. -/
def lastKnownBefore (col : List (Option ℚ)) : Nat → Option (Nat × ℚ)
  | 0 => none
  | j + 1 =>
    match col.getD j none with
    | some v => some (j, v)
    | none => lastKnownBefore col j

/-- Scan of the suffix of a column starting at position `i` for its first
non-missing entry. -/
def nextKnownAux : List (Option ℚ) → Nat → Option (Nat × ℚ)
  | [], _ => none
  | some v :: _, i => some (i, v)
  | none :: rest, i => nextKnownAux rest (i + 1)

/-- Index of the first non-missing entry of the column at position `≥ i`,
with its value. -/
def nextKnownFrom (col : List (Option ℚ)) (i : Nat) : Option (Nat × ℚ) :=
  nextKnownAux (col.drop i) i

/-- Value of `Series.interpolate(method="linear")` (positional, default
`limit_direction="forward"`) at position `i`: a present value is kept; an
interior missing value is the linear blend of the nearest preceding and
following known values; a trailing missing value is filled with the last
known value; a leading missing value stays missing. -/
def interpAt (col : List (Option ℚ)) (i : Nat) : Option ℚ :=
  match col.getD i none with
  | some v => some v
  | none =>
    match lastKnownBefore col i with
    | none => none
    | some pv =>
      match nextKnownFrom col (i + 1) with
      | none => some pv.2
      | some nv =>
        some (pv.2 + (nv.2 - pv.2) * (((i : ℚ) - pv.1) / ((nv.1 : ℚ) - pv.1)))

/-- `df.iloc[:, 1:].interpolate(method="linear", axis="index")`: each value
column interpolated independently along the row index. -/
def interpolateDf (l : List Slot) : List Slot :=
  l.enum.map
    (fun p => ⟨p.2.timestamp, fun f => interpAt (l.map (fun s => s.vals f)) p.1⟩)

/-- `df.iloc[:, 1:] = df.iloc[:, 1:] * c` on the hourly table (missing
values stay missing). -/
def scaleSlots (c : ℚ) (l : List Slot) : List Slot :=
  l.map (fun s => ⟨s.timestamp, fun f => (s.vals f).map (fun q => q * c)⟩)

/-- `df.iloc[:, 1:] = df.iloc[:, 1:] * c` on a table without missing values. -/
def scaleRows (c : ℚ) (l : List Row) : List Row :=
  l.map (fun r => ⟨r.timestamp, fun f => r.vals f * c⟩)

/-- Truncate the `timestamp` column of a row to the hour. -/
def truncRowHour (r : Row) : Row := ⟨truncHour r.timestamp, r.vals⟩

/-- Truncate the `timestamp` column of a row to midnight. -/
def truncRowDay (r : Row) : Row := ⟨truncDay r.timestamp, r.vals⟩

/-- Truncate the `timestamp` column of a row to the first of the month. -/
def truncRowMonth (r : Row) : Row := ⟨truncMonth r.timestamp, r.vals⟩

/-- Truncate the `timestamp` column of a row to January 1. -/
def truncRowYear (r : Row) : Row := ⟨truncYear r.timestamp, r.vals⟩

/-- The hour-grouped table of the `"hour"` branch (deduplicate, truncate to
the hour, group by timestamp with mean), viewed as hourly slots. -/
def hourGSlots (verbose : Bool) (rows : List Row) : List Slot :=
  (groupbyMeanTs (mapV verbose truncRowHour (dropDuplicates rows))).map rowToSlot

/-- The `time_section == "hour"` branch before interpolation: truncate to the
hour, group by timestamp with mean, synthesize the missing hours of every
recording day, sort by timestamp. -/
def regularizeHour (verbose : Bool) (rows : List Row) : List Slot :=
  sortSlots (hourGSlots verbose rows ++ missingSlots (hourGSlots verbose rows))

/-- The full `time_section == "hour"` branch. -/
def hourDf (verbose : Bool) (rows : List Row) : List Slot :=
  scaleSlots 12 (interpolateDf (regularizeHour verbose rows))

/-- The day-level grouping shared by the `"day"` and `"week"` branches:
truncate to midnight, group by timestamp with mean. -/
def dayLevel (verbose : Bool) (rows : List Row) : List Row :=
  groupbyMeanTs (mapV verbose truncRowDay (dropDuplicates rows))

/-- The `time_section == "day"` branch: day-level means, then `* 12 * 24`. -/
def dayDf (verbose : Bool) (rows : List Row) : List Row :=
  scaleRows (12 * 24) (dayLevel verbose rows)

/-- The `time_section == "month"` branch: truncate to the first of the month,
group by timestamp with mean, then `* 12 * 24`. -/
def monthDf (verbose : Bool) (rows : List Row) : List Row :=
  scaleRows (12 * 24) (groupbyMeanTs (mapV verbose truncRowMonth (dropDuplicates rows)))

/-- The `time_section == "year"` branch: truncate to January 1, group by
timestamp with mean, then `* 12 * 24`. -/
def yearDf (verbose : Bool) (rows : List Row) : List Row :=
  scaleRows (12 * 24) (groupbyMeanTs (mapV verbose truncRowYear (dropDuplicates rows)))

/-! ### ISO-8601 week numbering (pandas `Timestamp.week`) -/

/-- Gregorian leap year. -/
def isLeap (y : Nat) : Bool := (y % 4 == 0 && y % 100 != 0) || y % 400 == 0

/-- Number of days of month `m` of year `y`. -/
def daysInMonth (y m : Nat) : Nat :=
  if m = 2 then (if isLeap y then 29 else 28)
  else if m = 4 ∨ m = 6 ∨ m = 9 ∨ m = 11 then 30
  else 31

/-- Ordinal day of the year (Jan 1 = 1). -/
def dayOfYear (t : Timestamp) : Nat :=
  (List.range (t.month - 1)).foldl (fun acc i => acc + daysInMonth t.year (i + 1)) 0 + t.day

/-- Days of the proleptic Gregorian calendar before January 1 of year `y`. -/
def daysBeforeYear (y : Nat) : Nat :=
  365 * (y - 1) + (y - 1) / 4 + (y - 1) / 400 - (y - 1) / 100

/-- ISO day of week, Monday = 1 .. Sunday = 7 (year 1 began on a Monday). -/
def isoDow (t : Timestamp) : Nat := (daysBeforeYear t.year + dayOfYear t - 1) % 7 + 1

/-- Number of ISO weeks of year `y` (52, or 53 when the year starts on a
Thursday or is a leap year starting on a Wednesday). -/
def isoWeeksInYear (y : Nat) : Nat :=
  let jan1 := isoDow ⟨y, 1, 1, 0, 0, 0⟩
  if jan1 == 4 || (isLeap y && jan1 == 3) then 53 else 52

/-- ISO-8601 week number of a date, as returned by `timestamp.week`. -/
def isoWeek (t : Timestamp) : Nat :=
  let w : Int := ((dayOfYear t : Int) - (isoDow t : Int) + 10) / 7
  if w < 1 then isoWeeksInYear (t.year - 1)
  else if w > (isoWeeksInYear t.year : Int) then 1
  else w.toNat

/-- One row of the `"week"` branch working table after the `week` and `year`
columns are added. -/
def associate_week_with_year (row : WeekRow) : Int :=
  if row.week = 52 ∧ row.timestamp.month = 1 then (row.timestamp.year : Int) - 1
  else if row.week = 1 ∧ row.timestamp.month = 12 then (row.timestamp.year : Int) + 1
  else (row.timestamp.year : Int)

/-- The `"week"` branch working table: day-level means with the `week` column
(`timestamp.week`) and the `year` column (`associate_week_with_year`,
applied with `progress_apply` when verbose). -/
def weekDayRows (verbose : Bool) (rows : List Row) : List WeekRow :=
  mapV verbose (fun wr : WeekRow => { wr with year := associate_week_with_year wr })
    ((dayLevel verbose rows).map (fun r => ⟨r.timestamp, 0, isoWeek r.timestamp, r.vals⟩))

/-- Lexicographic order on the `(year, week)` group keys. -/
def ywLe (a b : Int × Nat) : Prop := a.1 < b.1 ∨ (a.1 = b.1 ∧ a.2 ≤ b.2)

instance : DecidableRel ywLe := fun a b => by unfold ywLe; infer_instance

instance : IsTotal (Int × Nat) ywLe :=
  ⟨fun a b => by unfold ywLe; rcases lt_trichotomy a.1 b.1 with h | h | h <;> omega⟩

instance : IsTrans (Int × Nat) ywLe := ⟨fun a b c => by unfold ywLe; omega⟩

/-- Sorted distinct `(year, week)` keys of `groupby(by=["year","week"])`. -/
def ywKeys (verbose : Bool) (rows : List Row) : List (Int × Nat) :=
  List.insertionSort ywLe
    (((weekDayRows verbose rows).map (fun r => (r.year, r.week))).dedup)

/-- The rows of one `(year, week)` group. -/
def weekGroup (verbose : Bool) (rows : List Row) (y : Int) (w : Nat) : List WeekRow :=
  (weekDayRows verbose rows).filter (fun r => r.year = y ∧ r.week = w)

/-- `groupby(by=["year","week"], as_index=False).min()` on the timestamp
column: the earliest day of the group. -/
def minTimestamp : List Timestamp → Timestamp
  | [] => ⟨0, 0, 0, 0, 0, 0⟩
  | t :: ts => ts.foldl (fun a b => if tsKey b < tsKey a then b else a) t

/-- The `time_section == "week"` branch: group the day-level rows by
`(year, week)` with mean, attach the group's earliest day timestamp, then
`* 12 * 24 * 7` on the value columns. -/
def weekDf (verbose : Bool) (rows : List Row) : List WeekRow :=
  (ywKeys verbose rows).map
    (fun p =>
      ⟨minTimestamp ((weekGroup verbose rows p.1 p.2).map (fun r => r.timestamp)),
        p.1, p.2,
        fun f =>
          mean ((weekGroup verbose rows p.1 p.2).map (fun r => r.vals f)) * (12 * 24 * 7)⟩)

/-- The result table of `generate_df_by_time_section`; the constructors
reflect the distinct column layouts of the branches. -/
inductive Table where
  | raw (rows : List Row)
  | hourly (slots : List Slot)
  | byPeriod (rows : List Row)
  | weekly (rows : List WeekRow)

/-- The recognized `time_section` values. -/
def validSections : List String := ["original", "hour", "day", "week", "month", "year"]

/-- `generate_df_by_time_section(time_section, save_path, verbose)`.
The CSV read is an external collaborator, modelled by the `df_original`
parameter; `save_path` is a pure output sink and does not affect the returned
table. The leading `assert` is modelled by `Except.error`; it fires before
the data parameter is examined. -/
def generate_df_by_time_section (time_section : String) (df_original : List Row)
    (verbose : Bool) : Except String Table :=
  if time_section ∈ validSections then
    .ok
      (if time_section = "original" then .raw df_original
       else if time_section = "hour" then .hourly (hourDf verbose df_original)
       else if time_section = "day" then .byPeriod (dayDf verbose df_original)
       else if time_section = "week" then .weekly (weekDf verbose df_original)
       else if time_section = "month" then .byPeriod (monthDf verbose df_original)
       else .byPeriod (yearDf verbose df_original))
  else .error (time_section ++ " is not a valid value for time_section.")

/-- Value of the slot with timestamp `t` in an hourly table (`none` when no
such slot exists or the slot's value column is missing). -/
def slotVal (l : List Slot) (t : Timestamp) (f : Field) : Option ℚ :=
  match l.find? (fun s => s.timestamp = t) with
  | some s => s.vals f
  | none => none

/-- Value of the bucket with timestamp `t` in an aggregated table. -/
def bucketVal (l : List Row) (t : Timestamp) (f : Field) : Option ℚ :=
  (l.find? (fun r => r.timestamp = t)).map (fun r => r.vals f)

/-- A raw row with all value columns equal to `c`. -/
def mkRow (y mo d h mi : Nat) (c : ℚ) : Row := ⟨⟨y, mo, d, h, mi, 0⟩, fun _ => c⟩

/-! ### Concrete inputs used by witnesses and counterexamples -/

/-- A duplicated reading (for the `"original"` branch). -/
def dupInput : List Row := [mkRow 2013 1 1 0 0 1, mkRow 2013 1 1 0 0 1]

/-- Input for the interpolation edge counterexample: one day with readings
only in hours 0 and 1 (values 10 and 20). -/
def c5rows : List Row := [mkRow 2013 1 1 0 0 10, mkRow 2013 1 1 1 0 20]

/-- Two slots whose first value column entry is missing. -/
def c5lead : List Slot :=
  [⟨⟨2013, 1, 1, 0, 0, 0⟩, fun _ => none⟩, ⟨⟨2013, 1, 1, 1, 0, 0⟩, fun _ => some 5⟩]

/-- Two slots whose last value column entry is missing. -/
def c5trail : List Slot :=
  [⟨⟨2013, 1, 1, 0, 0, 0⟩, fun _ => some 5⟩, ⟨⟨2013, 1, 1, 1, 0, 0⟩, fun _ => none⟩]

/-- Scenario input for C6: 5-minute readings for hour 0 (12 samples, value 2)
and hour 2 (12 samples, value 4) of 2013-01-01; hour 1 absent. -/
def c6rows : List Row :=
  ((List.range 12).map (fun i => mkRow 2013 1 1 0 (5 * i) 2)) ++
    ((List.range 12).map (fun i => mkRow 2013 1 1 2 (5 * i) 4))

/-- Input with readings on Jan 1 and Jan 3 but none on Jan 2. -/
def c4rows : List Row := [mkRow 2013 1 1 0 0 1, mkRow 2013 1 3 0 0 1]

/-- Input where hour 0 has two readings (values 0 and 6) and hours 1..23 have
one reading each (value 0): uneven per-hour sample counts. -/
def c1rows : List Row :=
  mkRow 2013 1 1 0 0 0 :: mkRow 2013 1 1 0 5 6 ::
    (List.range 23).map (fun i => mkRow 2013 1 1 (i + 1) 0 0)

/-- Input with two readings in one month whose hours are unevenly covered. -/
def c2rows : List Row := [mkRow 2013 1 1 0 0 0, mkRow 2013 1 1 1 0 24]

/-- A single reading on Monday 2013-07-01 (ISO week 27). -/
def c10rows : List Row := [mkRow 2013 7 1 0 0 1]

/-- One reading on each of the seven days of ISO week 27 of 2013
(2013-07-01 .. 2013-07-07). -/
def rows7 : List Row := (List.range 7).map (fun i => mkRow 2013 7 (1 + i) 0 0 1)

/-- A fully regular day: one reading per hour of 2013-01-01, value 2. -/
def rows24 : List Row := (List.range 24).map (fun h => mkRow 2013 1 1 h 0 2)

/-! ### End of definitions; theorems follow. -/

theorem mapV_eq (v : Bool) (f : α → β) (l : List α) : mapV v f l = l.map f := by
  cases v <;> rfl

theorem hourDf_verbose (rows : List Row) : hourDf true rows = hourDf false rows := by
  simp [hourDf, regularizeHour, hourGSlots, mapV_eq]

theorem dayLevel_verbose (rows : List Row) : dayLevel true rows = dayLevel false rows := by
  simp [dayLevel, mapV_eq]

theorem dayDf_verbose (rows : List Row) : dayDf true rows = dayDf false rows := by
  simp [dayDf, dayLevel_verbose]

theorem monthDf_verbose (rows : List Row) : monthDf true rows = monthDf false rows := by
  simp [monthDf, mapV_eq]

theorem yearDf_verbose (rows : List Row) : yearDf true rows = yearDf false rows := by
  simp [yearDf, mapV_eq]

theorem weekDayRows_verbose (rows : List Row) :
    weekDayRows true rows = weekDayRows false rows := by
  simp [weekDayRows, dayLevel_verbose, mapV_eq]

theorem weekDf_verbose (rows : List Row) : weekDf true rows = weekDf false rows := by
  simp [weekDf, ywKeys, weekGroup, weekDayRows_verbose]

/-- **C9.** For every input and every `time_section`, the result table of
`generate_df_by_time_section` is the same for `verbose = True` and
`verbose = False`: the verbose flag only toggles progress reporting. -/
theorem C9_verbose_no_effect (time_section : String) (rows : List Row) :
    generate_df_by_time_section time_section rows true =
      generate_df_by_time_section time_section rows false := by
  simp only [generate_df_by_time_section, hourDf_verbose, dayDf_verbose,
    monthDf_verbose, yearDf_verbose, weekDf_verbose]

/-- **C3.** Every row of the `"week"`-branch working table (day-level rows
with their `week` and `year` columns) has logical year: calendar year − 1
when its ISO week number is 52 and its month is January; calendar year + 1
when its ISO week number is 1 and its month is December; the calendar year
otherwise. -/
theorem C3_week_year_association (v : Bool) (rows : List Row) (wr : WeekRow)
    (hmem : wr ∈ weekDayRows v rows) :
    (wr.week = 52 ∧ wr.timestamp.month = 1 → wr.year = (wr.timestamp.year : Int) - 1) ∧
    (wr.week = 1 ∧ wr.timestamp.month = 12 → wr.year = (wr.timestamp.year : Int) + 1) ∧
    (¬(wr.week = 52 ∧ wr.timestamp.month = 1) → ¬(wr.week = 1 ∧ wr.timestamp.month = 12) →
      wr.year = (wr.timestamp.year : Int)) := by
  rw [weekDayRows, mapV_eq, List.map_map, List.mem_map] at hmem
  obtain ⟨r, -, rfl⟩ := hmem
  simp only [Function.comp_apply, associate_week_with_year]
  refine ⟨fun h => ?_, fun h => ?_, fun h1 h2 => ?_⟩
  · simp only [h.1, h.2, and_self, if_true]
  · rcases h with ⟨h1, h2⟩
    simp only [h1, h2]
    norm_num
  · simp only [if_neg h1, if_neg h2]

/-- Witness for C3 at a concrete input: 2012-01-01 has ISO week 52 and falls
in January, so its logical year is 2011. -/
theorem C3_week_year_association_witness :
    ∃ wr ∈ weekDayRows false [mkRow 2012 1 1 0 0 1],
      wr.week = 52 ∧ wr.timestamp.month = 1 ∧ wr.timestamp.year = 2012 ∧ wr.year = 2011 := by
  have hmem : (⟨⟨2012, 1, 1, 0, 0, 0⟩, 2011, 52, fun _ => (1 : ℚ)⟩ : WeekRow) ∈
      weekDayRows false [mkRow 2012 1 1 0 0 1] := by decide
  have h := (C3_week_year_association false [mkRow 2012 1 1 0 0 1] _ hmem).1
    ⟨by decide, by decide⟩
  refine ⟨_, hmem, by decide, by decide, by decide, ?_⟩
  rw [h]
  decide

/-- **C7.** An unrecognized `time_section` fails with the validation error
before any data is touched (the result does not depend on the data or the
verbose flag), and every recognized `time_section` returns a table. -/
theorem C7_granularity_validation (time_section : String) (rows rows2 : List Row)
    (v v2 : Bool) :
    (time_section ∉ validSections →
      generate_df_by_time_section time_section rows v =
          .error (time_section ++ " is not a valid value for time_section.") ∧
        generate_df_by_time_section time_section rows v =
          generate_df_by_time_section time_section rows2 v2) ∧
    (time_section ∈ validSections →
      ∃ t, generate_df_by_time_section time_section rows v = .ok t) := by
  constructor
  · intro h
    simp [generate_df_by_time_section, h]
  · intro h
    simp only [generate_df_by_time_section, if_pos h]
    exact ⟨_, rfl⟩

/-- Witness for C7: `"banana"` is rejected independently of the data, and
`"hour"` succeeds. -/
theorem C7_granularity_validation_witness :
    ("banana" ∉ validSections ∧
      generate_df_by_time_section "banana" dupInput true =
          .error ("banana" ++ " is not a valid value for time_section.") ∧
        generate_df_by_time_section "banana" dupInput true =
          generate_df_by_time_section "banana" [] false) ∧
    ("hour" ∈ validSections ∧
      ∃ t, generate_df_by_time_section "hour" dupInput true = .ok t) := by
  have h1 := (C7_granularity_validation "banana" dupInput [] true false).1 (by decide)
  have h2 := (C7_granularity_validation "hour" dupInput [] true false).2 (by decide)
  exact ⟨⟨by decide, h1⟩, ⟨by decide, h2⟩⟩

/-- **C8 counterexample.** On an input consisting of the same reading twice,
the `"original"` branch does **not** return the deduplicated raw table: the
duplicate row is kept (deduplication happens only in the non-original
branches). -/
theorem C8_original_not_dedup_cex :
    generate_df_by_time_section "original" dupInput false ≠
      .ok (.raw (dropDuplicates dupInput)) := by
  have h1 : generate_df_by_time_section "original" dupInput false = .ok (.raw dupInput) := by
    simp [generate_df_by_time_section, validSections]
  rw [h1]
  intro h
  rw [Except.ok.injEq, Table.raw.injEq] at h
  have h2 : dupInput = dropDuplicates dupInput := h
  revert h2
  decide

/-- **C8 amended.** The `"original"` branch returns the raw rows unchanged —
in particular without deduplication, which is applied only on the other
branches. -/
theorem C8_original_returns_raw (rows : List Row) (v : Bool) :
    generate_df_by_time_section "original" rows v = .ok (.raw rows) := by
  simp [generate_df_by_time_section, validSections]

/-! ### Interpolation lemmas -/

theorem lastKnownBefore_eq_none (col : List (Option ℚ)) :
    ∀ i, (∀ j, j < i → col.getD j none = none) → lastKnownBefore col i = none := by
  intro i
  induction i with
  | zero => intro _; rfl
  | succ k ih =>
    intro h
    unfold lastKnownBefore
    rw [h k (by omega)]
    exact ih (fun j hj => h j (by omega))

theorem lastKnownBefore_eq_some (col : List (Option ℚ)) (p : Nat) (v : ℚ)
    (hp : col.getD p none = some v) :
    ∀ i, p < i → (∀ j, p < j → j < i → col.getD j none = none) →
      lastKnownBefore col i = some (p, v) := by
  intro i
  induction i with
  | zero => omega
  | succ k ih =>
    intro hpi h
    unfold lastKnownBefore
    rcases Nat.lt_or_ge p k with hk | hk
    · rw [h k hk (by omega)]
      exact ih hk (fun j h1 h2 => h j h1 (by omega))
    · have : p = k := by omega
      subst this
      rw [hp]

theorem nextKnownAux_eq_none (l : List (Option ℚ)) :
    ∀ i, (∀ x ∈ l, x = none) → nextKnownAux l i = none := by
  induction l with
  | nil => intro _ _; rfl
  | cons c rest ih =>
    intro i h
    have hc : c = none := h c (by simp)
    subst hc
    exact ih (i + 1) (fun x hx => h x (by simp [hx]))

theorem drop_all_none (col : List (Option ℚ)) :
    ∀ i, (∀ j, i ≤ j → col.getD j none = none) → ∀ x ∈ col.drop i, x = none := by
  induction col with
  | nil => intro i _ x hx; simp at hx
  | cons c rest ih =>
    intro i h x hx
    cases i with
    | zero =>
      rw [List.drop_zero] at hx
      rcases List.mem_cons.mp hx with rfl | hx2
      · exact h 0 (by omega)
      · exact ih 0 (fun j _ => h (j + 1) (by omega)) x (by simpa using hx2)
    | succ k =>
      rw [List.drop_succ_cons] at hx
      exact ih k (fun j hj => h (j + 1) (by omega)) x hx

theorem nextKnownFrom_eq_none (col : List (Option ℚ)) (i : Nat)
    (h : ∀ j, i ≤ j → col.getD j none = none) : nextKnownFrom col i = none :=
  nextKnownAux_eq_none (col.drop i) i (drop_all_none col i h)

theorem interpAt_of_some (col : List (Option ℚ)) (i : Nat) (v : ℚ)
    (h : col.getD i none = some v) : interpAt col i = some v := by
  unfold interpAt
  rw [h]

theorem interpAt_leading (col : List (Option ℚ)) (i : Nat)
    (h : ∀ j, j ≤ i → col.getD j none = none) : interpAt col i = none := by
  unfold interpAt
  rw [h i le_rfl, lastKnownBefore_eq_none col i (fun j hj => h j (by omega))]

theorem interpAt_trailing (col : List (Option ℚ)) (p i : Nat) (v : ℚ)
    (hp : col.getD p none = some v) (hafter : ∀ j, p < j → col.getD j none = none)
    (hpi : p < i) : interpAt col i = some v := by
  unfold interpAt
  rw [hafter i hpi,
    lastKnownBefore_eq_some col p v hp i hpi (fun j h1 _ => hafter j h1),
    nextKnownFrom_eq_none col (i + 1) (fun j hj => hafter j (by omega))]

theorem length_interpolateDf (l : List Slot) : (interpolateDf l).length = l.length := by
  simp [interpolateDf]

theorem map_ts_interpolateDf (l : List Slot) :
    (interpolateDf l).map (fun s => s.timestamp) = l.map (fun s => s.timestamp) := by
  rw [interpolateDf, List.map_map]
  rw [show ((fun s : Slot => s.timestamp) ∘ fun p : Nat × Slot =>
      (⟨p.2.timestamp, fun f => interpAt (l.map (fun s => s.vals f)) p.1⟩ : Slot)) =
      (fun s : Slot => s.timestamp) ∘ Prod.snd from rfl]
  rw [← List.map_map, List.enum_map_snd]

theorem getElem?_interpolateDf (l : List Slot) (i : Nat) (hi : i < l.length) :
    (interpolateDf l)[i]? =
      some ⟨l[i].timestamp, fun f => interpAt (l.map (fun s => s.vals f)) i⟩ := by
  rw [interpolateDf, List.getElem?_map, List.getElem?_enum,
    List.getElem?_eq_getElem hi]
  rfl

theorem getElem?_interpolateDf_vals (l : List Slot) (i : Nat) (hi : i < l.length)
    (f : Field) :
    (interpolateDf l)[i]?.map (fun s => s.vals f) =
      some (interpAt (l.map (fun s => s.vals f)) i) := by
  rw [getElem?_interpolateDf l i hi]
  rfl

/-- **C5 amended.** In the interpolation step, for every field: a missing
value all of whose predecessors (itself included) are missing — a leading
edge with no known neighbor before it — remains missing; but a missing value
that comes after the last known value — a trailing edge with no known
neighbor after it — is filled with that last known value, not left missing. -/
theorem C5_interpolation_edges :
    (∀ (l : List Slot) (f : Field) (i : Nat), i < l.length →
      (∀ j, j ≤ i → (l.map (fun s => s.vals f)).getD j none = none) →
      (interpolateDf l)[i]?.map (fun s => s.vals f) = some none) ∧
    (∀ (l : List Slot) (f : Field) (p i : Nat) (v : ℚ), i < l.length →
      (l.map (fun s => s.vals f)).getD p none = some v →
      (∀ j, p < j → (l.map (fun s => s.vals f)).getD j none = none) →
      p < i →
      (interpolateDf l)[i]?.map (fun s => s.vals f) = some (some v)) := by
  constructor
  · intro l f i hi h
    rw [getElem?_interpolateDf_vals l i hi f, interpAt_leading _ _ h]
  · intro l f p i v hi hp hafter hpi
    rw [getElem?_interpolateDf_vals l i hi f, interpAt_trailing _ p i v hp hafter hpi]

/-- Witness for the amended C5 on concrete two-slot tables: a leading
missing value stays missing, a trailing missing value is filled with the
last known value `5`. -/
theorem C5_interpolation_edges_witness :
    (interpolateDf c5lead)[0]?.map (fun s => s.vals Field.coal) = some none ∧
    (interpolateDf c5trail)[1]?.map (fun s => s.vals Field.coal) = some (some 5) := by
  constructor
  · refine C5_interpolation_edges.1 c5lead Field.coal 0 (by decide) ?_
    intro j hj
    obtain rfl : j = 0 := by omega
    decide
  · refine C5_interpolation_edges.2 c5trail Field.coal 0 1 5 (by decide) (by decide) ?_ (by decide)
    intro j hj
    match j, hj with
    | 1, _ => decide
    | (k + 2), _ => rfl

set_option maxRecDepth 8000 in
/-- **C5 counterexample.** With readings only in hours 0 and 1 of one day
(values 10 and 20), the synthesized hours 2..23 form a missing run at the
end of the series with no known neighbor after it; the claim says hour 23
remains missing, but the code fills it with the last known value
(20, rescaled to 240). -/
theorem C5_trailing_filled_cex :
    slotVal (hourDf false c5rows) ⟨2013, 1, 1, 23, 0, 0⟩ Field.coal = some 240 := by
  decide

set_option maxRecDepth 8000 in
/-- **C6 counterexample.** On the spec's end-to-end scenario input (hours A
and C of one day present with 12 samples each, hour B absent), the
hour-granularity output does **not** contain exactly three HourlySlots: the
code synthesizes all 24 hours of the recording day. -/
theorem C6_three_slots_cex : (hourDf false c6rows).length ≠ 3 := by decide

set_option maxRecDepth 8000 in
/-- **C6 amended.** On the scenario input the hour-granularity output has 24
slots (one per hour of the day); hour B is interpolated to 3.0 per field
before rescaling; after the ×12 rescaling hour A = 24.0, hour B = 36.0 and
hour C = 48.0 per field (the remaining hours are forward-filled from hour C). -/
theorem C6_scenario :
    (hourDf false c6rows).length = 24 ∧
    (∀ f : Field,
      slotVal (interpolateDf (regularizeHour false c6rows)) ⟨2013, 1, 1, 1, 0, 0⟩ f =
        some 3 ∧
      slotVal (hourDf false c6rows) ⟨2013, 1, 1, 0, 0, 0⟩ f = some 24 ∧
      slotVal (hourDf false c6rows) ⟨2013, 1, 1, 1, 0, 0⟩ f = some 36 ∧
      slotVal (hourDf false c6rows) ⟨2013, 1, 1, 2, 0, 0⟩ f = some 48) := by
  constructor
  · decide
  · decide

set_option maxRecDepth 8000 in
/-- **C4 counterexample.** With readings on Jan 1 and Jan 3 only (a
non-empty, well-formed input), the timestamp 2013-01-02 05:00 lies between
the input's minimum and maximum timestamps, yet the regularized output has
no slot for it: whole missing days are not synthesized. -/
theorem C4_missing_day_cex :
    (∀ r ∈ c4rows, ValidTs r.timestamp) ∧ c4rows ≠ [] ∧
    (∃ r ∈ c4rows, tsLe r.timestamp ⟨2013, 1, 2, 5, 0, 0⟩) ∧
    (∃ r ∈ c4rows, tsLe ⟨2013, 1, 2, 5, 0, 0⟩ r.timestamp) ∧
    ⟨2013, 1, 2, 5, 0, 0⟩ ∉ (hourDf false c4rows).map (fun s => s.timestamp) := by
  decide

set_option maxRecDepth 8000 in
/-- **C1 counterexample.** With uneven per-hour sample counts (hour 0 has two
readings with mean 3, hours 1..23 one reading each), the day bucket
(mean of raw readings × 288 = 1728/25) differs from the sum of the day's 24
hourly-slot values (36). -/
theorem C1_day_sum_cex :
    bucketVal (dayDf false c1rows) ⟨2013, 1, 1, 0, 0, 0⟩ Field.coal ≠
      some (∑ h ∈ Finset.range 24,
        (slotVal (hourDf false c1rows) (setHour ⟨2013, 1, 1, 0, 0, 0⟩ h) Field.coal).getD 0) := by
  decide

set_option maxRecDepth 8000 in
/-- **C2 counterexample.** With two readings in one month (values 0 and 24 in
hours 0 and 1 of Jan 1), the month bucket is mean × 288 = 3456, while the sum
of the month's hourly-slot values is 6624: the month bucket is not a period
total. -/
theorem C2_month_sum_cex :
    bucketVal (monthDf false c2rows) ⟨2013, 1, 1, 0, 0, 0⟩ Field.coal ≠
      some ((((hourDf false c2rows).filter
          (fun s => truncMonth s.timestamp = ⟨2013, 1, 1, 0, 0, 0⟩)).map
            (fun s => (s.vals Field.coal).getD 0)).sum) := by
  decide

set_option maxRecDepth 8000 in
/-- **C10 counterexample.** With a single reading (one day, value 1), the
week bucket for its `(year, week)` group is 2016, while the sum of the
day-granularity buckets of the group's days is 288: a group with fewer than
seven days is scaled up, not summed. -/
theorem C10_week_sum_cex :
    ((weekDf false c10rows).find? (fun r => r.year = 2013 ∧ r.week = 27)).map
        (fun r => r.vals Field.coal) ≠
      some (((weekGroup false c10rows 2013 27).map
        (fun r => (bucketVal (dayDf false c10rows) r.timestamp Field.coal).getD 0)).sum) := by
  decide

/-! ### Structural lemmas: deduplication, grouping, lookup -/

theorem mem_dropDuplicates (l : List Row) (r : Row) : r ∈ dropDuplicates l ↔ r ∈ l := by
  induction l with
  | nil => simp [dropDuplicates]
  | cons a rest ih =>
    simp only [dropDuplicates, List.mem_cons, List.mem_filter, decide_eq_true_eq, ih]
    by_cases h : r = a <;> simp [h]

theorem nodup_groupKeys (rows : List Row) : (groupKeys rows).Nodup :=
  (List.perm_insertionSort tsLe _).symm.nodup (List.nodup_dedup _)

theorem mem_groupKeys (rows : List Row) (k : Timestamp) :
    k ∈ groupKeys rows ↔ ∃ r ∈ rows, r.timestamp = k := by
  rw [groupKeys, List.mem_insertionSort, List.mem_dedup, List.mem_map]

theorem map_timestamp_groupbyMeanTs (rows : List Row) :
    (groupbyMeanTs rows).map (fun r => r.timestamp) = groupKeys rows := by
  rw [groupbyMeanTs, List.map_map]
  exact List.map_id _

/-- `find?` over a keyed `map`: the first hit is the entry of key `k`, for
any predicate that accepts exactly the key `k`. -/
theorem find?_map_keys {α β : Type} (ks : List α) (F : α → β) (p : β → Bool) (k : α)
    (hk : k ∈ ks) (hpk : p (F k) = true)
    (hother : ∀ a ∈ ks, a ≠ k → p (F a) = false) (hnd : ks.Nodup) :
    (ks.map F).find? p = some (F k) := by
  induction ks with
  | nil => simp at hk
  | cons a rest ih =>
    rw [List.map_cons, List.find?_cons]
    by_cases hak : a = k
    · subst hak
      rw [hpk]
    · rw [hother a (by simp) hak]
      exact ih (by rcases List.mem_cons.mp hk with h | h; exact absurd h.symm hak; exact h)
        (fun x hx hxk => hother x (by simp [hx]) hxk) hnd.of_cons

/-- `find?` by timestamp-like key on a list with distinct keys returns the
entry at any index that carries the key. -/
theorem find?_key_getElem {β γ : Type} [DecidableEq γ] (key : β → γ) (L : List β)
    (i : Nat) (hi : i < L.length) (hnd : (L.map key).Nodup) :
    L.find? (fun b => key b = key (L.get ⟨i, hi⟩)) = some (L.get ⟨i, hi⟩) := by
  induction L generalizing i with
  | nil => simp at hi
  | cons a rest ih =>
    cases i with
    | zero =>
      rw [List.find?_cons]
      simp
    | succ j =>
      have hj : j < rest.length := by simpa using hi
      rw [List.find?_cons]
      have hne : key a ≠ key ((a :: rest).get ⟨j + 1, hi⟩) := by
        have h1 : key ((a :: rest).get ⟨j + 1, hi⟩) ∈ rest.map key := by
          rw [List.get_cons_succ]
          exact List.mem_map_of_mem key (rest.get_mem _ _)
        rw [List.map_cons] at hnd
        intro h
        exact (List.nodup_cons.mp hnd).1 (h ▸ h1)
      rw [decide_eq_false hne]
      rw [List.get_cons_succ]
      exact ih j hj (by rw [List.map_cons] at hnd; exact hnd.of_cons)

theorem bucketVal_scaleRows (c : ℚ) (l : List Row) (t : Timestamp) (f : Field) :
    bucketVal (scaleRows c l) t f = (bucketVal l t f).map (fun q => q * c) := by
  rw [bucketVal, bucketVal, scaleRows, List.find?_map]
  rw [show ((fun r : Row => decide (r.timestamp = t)) ∘ fun r : Row =>
      (⟨r.timestamp, fun f => r.vals f * c⟩ : Row)) =
      (fun r : Row => decide (r.timestamp = t)) from rfl]
  cases h : l.find? (fun r => decide (r.timestamp = t)) <;> simp [h]

theorem slotVal_scaleSlots (c : ℚ) (l : List Slot) (t : Timestamp) (f : Field) :
    slotVal (scaleSlots c l) t f = (slotVal l t f).map (fun q => q * c) := by
  rw [slotVal, slotVal, scaleSlots, List.find?_map]
  rw [show ((fun s : Slot => decide (s.timestamp = t)) ∘ fun s : Slot =>
      (⟨s.timestamp, fun f => (s.vals f).map (fun q => q * c)⟩ : Slot)) =
      (fun s : Slot => decide (s.timestamp = t)) from rfl]
  cases h : l.find? (fun s => decide (s.timestamp = t)) <;> simp [h]

theorem map_ts_scaleSlots (c : ℚ) (l : List Slot) :
    (scaleSlots c l).map (fun s => s.timestamp) = l.map (fun s => s.timestamp) := by
  rw [scaleSlots, List.map_map]
  rfl

theorem map_ts_scaleRows (c : ℚ) (l : List Row) :
    (scaleRows c l).map (fun r => r.timestamp) = l.map (fun r => r.timestamp) := by
  rw [scaleRows, List.map_map]
  rfl

/-- The bucket of key `k` in a `groupby(["timestamp"]).mean()` result. -/
theorem find?_groupbyMeanTs (rows : List Row) (k : Timestamp) (hk : k ∈ groupKeys rows) :
    (groupbyMeanTs rows).find? (fun r => r.timestamp = k) =
      some ⟨k, fun f => mean ((groupRows rows k).map (fun r => r.vals f))⟩ := by
  rw [groupbyMeanTs]
  exact find?_map_keys (groupKeys rows) _ _ k hk (by simp)
    (fun a _ ha => by simpa using ha) (nodup_groupKeys rows)

/-! ### Generic facts about the truncate-group-scale pipelines -/

theorem mem_keys_map_trunc (tr : Row → Row) (l : List Row) (k : Timestamp) :
    k ∈ groupKeys (l.map tr) ↔ ∃ r ∈ l, (tr r).timestamp = k := by
  rw [mem_groupKeys]
  constructor
  · rintro ⟨x, hx, hxk⟩
    obtain ⟨r, hr, rfl⟩ := List.mem_map.mp hx
    exact ⟨r, hr, hxk⟩
  · rintro ⟨r, hr, h⟩
    exact ⟨tr r, List.mem_map_of_mem tr hr, h⟩

theorem groupRows_map_trunc (tr : Row → Row) (l : List Row) (k : Timestamp) :
    groupRows (l.map tr) k = (l.filter (fun r => (tr r).timestamp = k)).map tr := by
  rw [groupRows, List.filter_map]
  rfl

theorem bucket_of_trunc_pipeline (tr : Row → Row) (l : List Row) (c : ℚ) (k : Timestamp)
    (f : Field) (hk : k ∈ groupKeys (l.map tr)) :
    bucketVal (scaleRows c (groupbyMeanTs (l.map tr))) k f =
      some (mean ((l.filter (fun r => (tr r).timestamp = k)).map
        (fun r => (tr r).vals f)) * c) := by
  rw [bucketVal_scaleRows, bucketVal, find?_groupbyMeanTs _ _ hk]
  rw [groupRows_map_trunc]
  simp only [Option.map_some']
  rw [List.map_map]
  rfl

/-- **C2 amended.** The month-granularity output groups the deduplicated raw
readings by timestamp truncated to the first of the month at midnight, and the
year-granularity output by timestamp truncated to January 1 at midnight; but
each bucket's value is the per-field **mean** of the period's readings times
288 — a mean daily total, printed as such by the code — not the period sum. -/
theorem C2_month_year_mean_buckets (v : Bool) (rows : List Row) (k : Timestamp) (f : Field) :
    ((k ∈ (monthDf v rows).map (fun r => r.timestamp) ↔
        ∃ r ∈ rows, truncMonth r.timestamp = k) ∧
      (k ∈ (monthDf v rows).map (fun r => r.timestamp) →
        bucketVal (monthDf v rows) k f =
          some (mean (((dropDuplicates rows).filter
            (fun r => truncMonth r.timestamp = k)).map (fun r => r.vals f)) * (12 * 24)))) ∧
    ((k ∈ (yearDf v rows).map (fun r => r.timestamp) ↔
        ∃ r ∈ rows, truncYear r.timestamp = k) ∧
      (k ∈ (yearDf v rows).map (fun r => r.timestamp) →
        bucketVal (yearDf v rows) k f =
          some (mean (((dropDuplicates rows).filter
            (fun r => truncYear r.timestamp = k)).map (fun r => r.vals f)) * (12 * 24)))) := by
  have hm : (monthDf v rows).map (fun r => r.timestamp) =
      groupKeys ((dropDuplicates rows).map truncRowMonth) := by
    rw [monthDf, mapV_eq, map_ts_scaleRows, map_timestamp_groupbyMeanTs]
  have hy : (yearDf v rows).map (fun r => r.timestamp) =
      groupKeys ((dropDuplicates rows).map truncRowYear) := by
    rw [yearDf, mapV_eq, map_ts_scaleRows, map_timestamp_groupbyMeanTs]
  refine ⟨⟨?_, ?_⟩, ?_, ?_⟩
  · rw [hm, mem_keys_map_trunc]
    constructor
    · rintro ⟨r, hr, h⟩
      exact ⟨r, (mem_dropDuplicates rows r).mp hr, h⟩
    · rintro ⟨r, hr, h⟩
      exact ⟨r, (mem_dropDuplicates rows r).mpr hr, h⟩
  · intro hk
    rw [hm] at hk
    rw [monthDf, mapV_eq]
    exact bucket_of_trunc_pipeline truncRowMonth (dropDuplicates rows) (12 * 24) k f hk
  · rw [hy, mem_keys_map_trunc]
    constructor
    · rintro ⟨r, hr, h⟩
      exact ⟨r, (mem_dropDuplicates rows r).mp hr, h⟩
    · rintro ⟨r, hr, h⟩
      exact ⟨r, (mem_dropDuplicates rows r).mpr hr, h⟩
  · intro hk
    rw [hy] at hk
    rw [yearDf, mapV_eq]
    exact bucket_of_trunc_pipeline truncRowYear (dropDuplicates rows) (12 * 24) k f hk

set_option maxRecDepth 8000 in
/-- Witness for the amended C2 at the concrete two-reading input: the January
2013 month bucket is the mean of its readings times 288, i.e. 3456. -/
theorem C2_month_year_mean_buckets_witness :
    ⟨2013, 1, 1, 0, 0, 0⟩ ∈ (monthDf false c2rows).map (fun r => r.timestamp) ∧
      bucketVal (monthDf false c2rows) ⟨2013, 1, 1, 0, 0, 0⟩ Field.coal = some 3456 := by
  have h := (C2_month_year_mean_buckets false c2rows ⟨2013, 1, 1, 0, 0, 0⟩ Field.coal).1.2
  refine ⟨by decide, ?_⟩
  rw [h (by decide)]
  decide

/-! ### The week pipeline -/

theorem weekDayRows_eq (v : Bool) (rows : List Row) :
    weekDayRows v rows = (dayLevel v rows).map
      (fun r => ⟨r.timestamp,
        associate_week_with_year ⟨r.timestamp, 0, isoWeek r.timestamp, r.vals⟩,
        isoWeek r.timestamp, r.vals⟩) := by
  rw [weekDayRows, mapV_eq, List.map_map]
  rfl

theorem nodup_ywKeys (v : Bool) (rows : List Row) : (ywKeys v rows).Nodup :=
  (List.perm_insertionSort ywLe _).symm.nodup (List.nodup_dedup _)

theorem bucketVal_dayDf_of_mem (v : Bool) (rows : List Row) (r0 : Row)
    (h : r0 ∈ dayLevel v rows) (f : Field) :
    bucketVal (dayDf v rows) r0.timestamp f = some (r0.vals f * (12 * 24)) := by
  rw [dayLevel] at h
  obtain ⟨k, hk, rfl⟩ := List.mem_map.mp h
  have hts : (⟨k, fun f => mean ((groupRows (mapV v truncRowDay (dropDuplicates rows)) k).map
      (fun r => r.vals f))⟩ : Row).timestamp = k := rfl
  rw [dayDf, dayLevel, bucketVal_scaleRows, bucketVal, hts, find?_groupbyMeanTs _ _ hk]
  rfl

theorem find?_weekDf (v : Bool) (rows : List Row) (y : Int) (w : Nat)
    (hmem : (y, w) ∈ ywKeys v rows) :
    (weekDf v rows).find? (fun r => r.year = y ∧ r.week = w) =
      some ⟨minTimestamp ((weekGroup v rows y w).map (fun r => r.timestamp)), y, w,
        fun f => mean ((weekGroup v rows y w).map (fun r => r.vals f)) * (12 * 24 * 7)⟩ := by
  rw [weekDf]
  exact find?_map_keys (ywKeys v rows) _ _ (y, w) hmem (by simp)
    (fun a _ ha => by
      rcases a with ⟨a1, a2⟩
      simp only [decide_eq_false_iff_not]
      intro hcon
      exact ha (by rw [hcon.1, hcon.2]))
    (nodup_ywKeys v rows)

/-- **C10 amended.** A week bucket whose `(logical year, ISO week)` group
contains exactly seven day-level rows equals, per field, the sum of the
day-granularity buckets of the days in that group (mean over 7 days × 2016 =
sum of the day totals × 288/288). For groups with fewer days the two differ. -/
theorem C10_week_equals_day_sum (v : Bool) (rows : List Row) (y : Int) (w : Nat) (f : Field)
    (hmem : (y, w) ∈ ywKeys v rows)
    (hlen : (weekGroup v rows y w).length = 7) :
    ((weekDf v rows).find? (fun r => r.year = y ∧ r.week = w)).map (fun r => r.vals f) =
      some (((weekGroup v rows y w).map
        (fun r => (bucketVal (dayDf v rows) r.timestamp f).getD 0)).sum) := by
  rw [find?_weekDf v rows y w hmem, Option.map_some']
  have hterm : ∀ r ∈ weekGroup v rows y w,
      (bucketVal (dayDf v rows) r.timestamp f).getD 0 = r.vals f * (12 * 24) := by
    intro r hr
    have hr2 : r ∈ weekDayRows v rows := List.mem_of_mem_filter hr
    rw [weekDayRows_eq] at hr2
    obtain ⟨r0, hr0, rfl⟩ := List.mem_map.mp hr2
    rw [show (⟨r0.timestamp,
      associate_week_with_year ⟨r0.timestamp, 0, isoWeek r0.timestamp, r0.vals⟩,
      isoWeek r0.timestamp, r0.vals⟩ : WeekRow).timestamp = r0.timestamp from rfl]
    rw [bucketVal_dayDf_of_mem v rows r0 hr0 f]
    rfl
  rw [List.map_congr_left hterm, List.sum_map_mul_right]
  simp only [mean, List.length_map, hlen]
  congr 1
  field_simp
  ring

/-- Witness for the amended C10: seven days of one ISO week, each of value 1;
the week bucket (2016) equals the sum of the seven day buckets (7 × 288). -/
theorem C10_week_equals_day_sum_witness :
    ((weekDf false rows7).find? (fun r => r.year = 2013 ∧ r.week = 27)).map
        (fun r => r.vals Field.coal) =
      some (((weekGroup false rows7 2013 27).map
        (fun r => (bucketVal (dayDf false rows7) r.timestamp Field.coal).getD 0)).sum) :=
  C10_week_equals_day_sum false rows7 2013 27 Field.coal (by decide) (by decide)

/-! ### The hourly grid: shapes of truncated timestamps -/

theorem tsKey_inj (a b : Timestamp) (ha : ValidTs a) (hb : ValidTs b)
    (h : tsKey a = tsKey b) : a = b := by
  obtain ⟨y1, mo1, d1, h1, mi1, s1⟩ := a
  obtain ⟨y2, mo2, d2, h2, mi2, s2⟩ := b
  unfold ValidTs at ha hb
  unfold tsKey at h
  dsimp only at h ha hb
  simp only [Timestamp.mk.injEq]
  omega

theorem daysList_shape (slots : List Slot) (d : Timestamp) (hd : d ∈ daysList slots) :
    d.hour = 0 ∧ d.minute = 0 ∧ d.second = 0 := by
  rw [daysList, List.mem_dedup, List.mem_map] at hd
  obtain ⟨s, -, rfl⟩ := hd
  exact ⟨rfl, rfl, rfl⟩

theorem truncDay_setHour (d : Timestamp) (h : Nat)
    (hd : d.hour = 0 ∧ d.minute = 0 ∧ d.second = 0) : truncDay (setHour d h) = d := by
  obtain ⟨y, mo, dy, hh, mi, s⟩ := d
  obtain ⟨h1, h2, h3⟩ := hd
  subst h1
  subst h2
  subst h3
  rfl

theorem ts_eq_setHour (t d : Timestamp) (hmin : t.minute = 0 ∧ t.second = 0)
    (htd : truncDay t = d) : t = setHour d t.hour := by
  obtain ⟨y, mo, dy, hh, mi, s⟩ := t
  obtain ⟨h1, h2⟩ := hmin
  subst htd
  subst h1
  subst h2
  rfl

theorem mem_hoursOfDay (slots : List Slot) (d : Timestamp) (s : Slot) :
    s ∈ hoursOfDay slots d ↔ s ∈ slots ∧ truncDay s.timestamp = d := by
  simp [hoursOfDay, List.mem_filter]

/-- For a recording day `d`, the inner `np.any` test of the missing-hour scan
detects exactly the hours whose grid timestamp is present. -/
theorem any_hour_iff (slots : List Slot) (d : Timestamp) (h : Nat)
    (hmin : ∀ t ∈ slots.map (fun s => s.timestamp), t.minute = 0 ∧ t.second = 0)
    (hd : d ∈ daysList slots) :
    ((hoursOfDay slots d).any (fun s => s.timestamp.hour = h) = true) ↔
      setHour d h ∈ slots.map (fun s => s.timestamp) := by
  rw [List.any_eq_true]
  constructor
  · rintro ⟨s, hs, hsh⟩
    rw [decide_eq_true_eq] at hsh
    rw [mem_hoursOfDay] at hs
    have hshape := hmin s.timestamp (List.mem_map_of_mem _ hs.1)
    have : s.timestamp = setHour d h := by
      rw [← hsh]
      exact ts_eq_setHour s.timestamp d hshape hs.2
    rw [← this]
    exact List.mem_map_of_mem _ hs.1
  · intro hmem
    obtain ⟨s, hs, hts⟩ := List.mem_map.mp hmem
    refine ⟨s, ?_, ?_⟩
    · rw [mem_hoursOfDay]
      exact ⟨hs, by rw [hts]; exact truncDay_setHour d h (daysList_shape slots d hd)⟩
    · rw [decide_eq_true_eq, hts]
      rfl

/-- Pigeonhole: a recording day that already has 24 rows has every hour
`0..23` present (the rows have distinct timestamps of that day with minutes
and seconds zero and hour < 24). -/
theorem any_hour_of_length_24 (slots : List Slot) (d : Timestamp)
    (hmin : ∀ t ∈ slots.map (fun s => s.timestamp), t.minute = 0 ∧ t.second = 0)
    (hh24 : ∀ t ∈ slots.map (fun s => s.timestamp), t.hour < 24)
    (hnd : (slots.map (fun s => s.timestamp)).Nodup)
    (hlen : (hoursOfDay slots d).length = 24) (h : Nat) (hh : h < 24) :
    (hoursOfDay slots d).any (fun s => s.timestamp.hour = h) = true := by
  set H := (hoursOfDay slots d).map (fun s => s.timestamp.hour) with hH
  have hsub : List.Sublist (hoursOfDay slots d) slots := List.filter_sublist _
  have hndts : ((hoursOfDay slots d).map (fun s => s.timestamp)).Nodup :=
    hnd.sublist (hsub.map _)
  have h1 : (hoursOfDay slots d).Pairwise (fun a b => a.timestamp ≠ b.timestamp) :=
    List.pairwise_map.mp hndts
  have h2 : (hoursOfDay slots d).Pairwise
      (fun a b => a.timestamp.hour ≠ b.timestamp.hour) := by
    refine h1.imp_of_mem ?_
    intro a b ha hb hne heq
    apply hne
    have ha2 := (mem_hoursOfDay slots d a).mp ha
    have hb2 := (mem_hoursOfDay slots d b).mp hb
    rw [ts_eq_setHour a.timestamp d (hmin _ (List.mem_map_of_mem _ ha2.1)) ha2.2,
      ts_eq_setHour b.timestamp d (hmin _ (List.mem_map_of_mem _ hb2.1)) hb2.2, heq]
  have hndH : H.Nodup := List.pairwise_map.mpr h2
  have hcard : H.toFinset = Finset.range 24 := by
    apply Finset.eq_of_subset_of_card_le
    · intro x hx
      rw [List.mem_toFinset] at hx
      rw [Finset.mem_range]
      obtain ⟨s, hs, rfl⟩ := List.mem_map.mp hx
      exact hh24 s.timestamp (List.mem_map_of_mem _ ((mem_hoursOfDay slots d s).mp hs).1)
    · rw [Finset.card_range, List.card_toFinset, hndH.dedup, hH, List.length_map, hlen]
  have hmemH : h ∈ H := by
    rw [← List.mem_toFinset, hcard, Finset.mem_range]
    exact hh
  obtain ⟨s, hs, hsh⟩ := List.mem_map.mp hmemH
  rw [List.any_eq_true]
  exact ⟨s, hs, by rw [decide_eq_true_eq, hsh]⟩

/-- Membership in the synthesized missing hours of a recording day. -/
theorem mem_missingHoursOfDay (slots : List Slot) (d : Timestamp) (t : Timestamp)
    (hmin : ∀ t2 ∈ slots.map (fun s => s.timestamp), t2.minute = 0 ∧ t2.second = 0)
    (hh24 : ∀ t2 ∈ slots.map (fun s => s.timestamp), t2.hour < 24)
    (hnd : (slots.map (fun s => s.timestamp)).Nodup)
    (hd : d ∈ daysList slots) :
    t ∈ missingHoursOfDay slots d ↔
      ∃ h, h < 24 ∧ t = setHour d h ∧ t ∉ slots.map (fun s => s.timestamp) := by
  rw [missingHoursOfDay]
  split_ifs with hlen
  · simp only [List.not_mem_nil, false_iff]
    rintro ⟨h, hh, rfl, hnot⟩
    exact hnot ((any_hour_iff slots d h hmin hd).mp
      (any_hour_of_length_24 slots d hmin hh24 hnd hlen h hh))
  · rw [List.mem_filterMap]
    constructor
    · rintro ⟨h, hh, hres⟩
      rw [List.mem_range] at hh
      split_ifs at hres with hany
      rw [Option.some.injEq] at hres
      refine ⟨h, hh, hres.symm, ?_⟩
      rw [← hres]
      intro hmem
      exact hany ((any_hour_iff slots d h hmin hd).mpr hmem)
    · rintro ⟨h, hh, rfl, hnot⟩
      refine ⟨h, List.mem_range.mpr hh, ?_⟩
      have hany : ¬((hoursOfDay slots d).any (fun s => s.timestamp.hour = h) = true) :=
        fun ha => hnot ((any_hour_iff slots d h hmin hd).mp ha)
      rw [if_neg hany]

theorem map_ts_missingSlots (slots : List Slot) :
    (missingSlots slots).map (fun s => s.timestamp) =
      (daysList slots).flatMap (fun d => missingHoursOfDay slots d) := by
  rw [missingSlots, List.map_flatMap]
  congr 1
  funext d
  rw [List.map_map]
  exact List.map_id _

theorem mem_ts_missingSlots (slots : List Slot) (t : Timestamp)
    (hmin : ∀ t2 ∈ slots.map (fun s => s.timestamp), t2.minute = 0 ∧ t2.second = 0)
    (hh24 : ∀ t2 ∈ slots.map (fun s => s.timestamp), t2.hour < 24)
    (hnd : (slots.map (fun s => s.timestamp)).Nodup) :
    t ∈ (missingSlots slots).map (fun s => s.timestamp) ↔
      ∃ d ∈ daysList slots, ∃ h, h < 24 ∧ t = setHour d h ∧
        t ∉ slots.map (fun s => s.timestamp) := by
  rw [map_ts_missingSlots, List.mem_flatMap]
  constructor
  · rintro ⟨d, hd, hmem⟩
    exact ⟨d, hd, (mem_missingHoursOfDay slots d t hmin hh24 hnd hd).mp hmem⟩
  · rintro ⟨d, hd, hmem⟩
    exact ⟨d, hd, (mem_missingHoursOfDay slots d t hmin hh24 hnd hd).mpr hmem⟩

theorem nodup_ts_missingSlots (slots : List Slot)
    (hmin : ∀ t2 ∈ slots.map (fun s => s.timestamp), t2.minute = 0 ∧ t2.second = 0)
    (hh24 : ∀ t2 ∈ slots.map (fun s => s.timestamp), t2.hour < 24)
    (hnd : (slots.map (fun s => s.timestamp)).Nodup) :
    ((missingSlots slots).map (fun s => s.timestamp)).Nodup := by
  rw [map_ts_missingSlots, List.nodup_flatMap]
  constructor
  · intro d hd
    rw [missingHoursOfDay]
    split_ifs
    · exact List.nodup_nil
    · refine List.Nodup.filterMap ?_ (List.nodup_range _)
      intro a b c hca hcb
      have ea : setHour d a = c := by
        rw [Option.mem_def] at hca
        split_ifs at hca
        exact (Option.some.injEq _ _).mp hca
      have eb : setHour d b = c := by
        rw [Option.mem_def] at hcb
        split_ifs at hcb
        exact (Option.some.injEq _ _).mp hcb
      have : (setHour d a).hour = (setHour d b).hour := by rw [ea, eb]
      exact this
  · refine List.Pairwise.imp_of_mem ?_ (List.nodup_dedup _)
    intro d1 d2 hd1 hd2 hne t ht1 ht2
    obtain ⟨h1, hh1, rfl, -⟩ :=
      (mem_missingHoursOfDay slots d1 _ hmin hh24 hnd hd1).mp ht1
    obtain ⟨h2, hh2, he2, -⟩ :=
      (mem_missingHoursOfDay slots d2 _ hmin hh24 hnd hd2).mp ht2
    apply hne
    have e1 : truncDay (setHour d1 h1) = d1 := truncDay_setHour d1 h1 (daysList_shape slots d1 hd1)
    have e2 : truncDay (setHour d2 h2) = d2 := truncDay_setHour d2 h2 (daysList_shape slots d2 hd2)
    rw [← e1, he2, e2]

theorem nodup_ts_withMissing (slots : List Slot)
    (hmin : ∀ t2 ∈ slots.map (fun s => s.timestamp), t2.minute = 0 ∧ t2.second = 0)
    (hh24 : ∀ t2 ∈ slots.map (fun s => s.timestamp), t2.hour < 24)
    (hnd : (slots.map (fun s => s.timestamp)).Nodup) :
    ((slots ++ missingSlots slots).map (fun s => s.timestamp)).Nodup := by
  rw [List.map_append, List.nodup_append]
  refine ⟨hnd, nodup_ts_missingSlots slots hmin hh24 hnd, ?_⟩
  intro t ht hmem2
  obtain ⟨d, hd, h, hh, rfl, hnot⟩ :=
    (mem_ts_missingSlots slots t hmin hh24 hnd).mp hmem2
  exact hnot ht

theorem truncHour_eq_setHour (t : Timestamp) :
    truncHour t = setHour (truncDay t) t.hour := by
  obtain ⟨y, mo, dy, hh, mi, se⟩ := t
  rfl

theorem truncDay_truncHour (t : Timestamp) : truncDay (truncHour t) = truncDay t := by
  obtain ⟨y, mo, dy, hh, mi, se⟩ := t
  rfl

theorem valid_setHour_truncDay (t : Timestamp) (h : Nat) (ht : ValidTs t) (hh : h < 24) :
    ValidTs (setHour (truncDay t) h) := by
  obtain ⟨y, mo, dy, h2, mi, se⟩ := t
  unfold ValidTs at ht ⊢
  dsimp only [setHour, truncDay] at *
  omega

theorem map_ts_hourGSlots (v : Bool) (rows : List Row) :
    (hourGSlots v rows).map (fun s => s.timestamp) =
      groupKeys ((dropDuplicates rows).map truncRowHour) := by
  rw [hourGSlots, mapV_eq, List.map_map]
  rw [show ((fun s : Slot => s.timestamp) ∘ rowToSlot) = (fun r : Row => r.timestamp) from rfl]
  exact map_timestamp_groupbyMeanTs _

theorem mem_ts_hourGSlots (v : Bool) (rows : List Row) (t : Timestamp) :
    t ∈ (hourGSlots v rows).map (fun s => s.timestamp) ↔
      ∃ r ∈ rows, truncHour r.timestamp = t := by
  rw [map_ts_hourGSlots, mem_keys_map_trunc]
  constructor <;> rintro ⟨r, hr, h⟩
  · exact ⟨r, (mem_dropDuplicates rows r).mp hr, h⟩
  · exact ⟨r, (mem_dropDuplicates rows r).mpr hr, h⟩

theorem nodup_ts_hourGSlots (v : Bool) (rows : List Row) :
    ((hourGSlots v rows).map (fun s => s.timestamp)).Nodup := by
  rw [map_ts_hourGSlots]
  exact nodup_groupKeys _

theorem shape_ts_hourGSlots (v : Bool) (rows : List Row) :
    ∀ t ∈ (hourGSlots v rows).map (fun s => s.timestamp),
      t.minute = 0 ∧ t.second = 0 := by
  intro t ht
  obtain ⟨r, -, h⟩ := (mem_ts_hourGSlots v rows t).mp ht
  subst h
  exact ⟨rfl, rfl⟩

theorem hour_lt_ts_hourGSlots (v : Bool) (rows : List Row)
    (hvalid : ∀ r ∈ rows, ValidTs r.timestamp) :
    ∀ t ∈ (hourGSlots v rows).map (fun s => s.timestamp), t.hour < 24 := by
  intro t ht
  obtain ⟨r, hr, h⟩ := (mem_ts_hourGSlots v rows t).mp ht
  subst h
  exact (hvalid r hr).2.2.2.2.2.1

theorem nodup_ts_regularizeHour (v : Bool) (rows : List Row)
    (hvalid : ∀ r ∈ rows, ValidTs r.timestamp) :
    ((regularizeHour v rows).map (fun s => s.timestamp)).Nodup := by
  rw [regularizeHour, sortSlots]
  exact ((List.perm_insertionSort slotLe _).map _).symm.nodup
    (nodup_ts_withMissing _ (shape_ts_hourGSlots v rows)
      (hour_lt_ts_hourGSlots v rows hvalid) (nodup_ts_hourGSlots v rows))

theorem map_ts_hourDf (v : Bool) (rows : List Row) :
    (hourDf v rows).map (fun s => s.timestamp) =
      (regularizeHour v rows).map (fun s => s.timestamp) := by
  rw [hourDf, map_ts_scaleSlots, map_ts_interpolateDf]

/-- The timestamps of the regularized hourly table are exactly the 24 hourly
grid points of every recording day. -/
theorem mem_ts_regularizeHour (v : Bool) (rows : List Row) (t : Timestamp)
    (hvalid : ∀ r ∈ rows, ValidTs r.timestamp) :
    t ∈ (regularizeHour v rows).map (fun s => s.timestamp) ↔
      ∃ r ∈ rows, ∃ h, h < 24 ∧ t = setHour (truncDay r.timestamp) h := by
  rw [regularizeHour, sortSlots,
    ((List.perm_insertionSort slotLe _).map (fun s => s.timestamp)).mem_iff,
    List.map_append, List.mem_append]
  constructor
  · rintro (hg | hm)
    · obtain ⟨r, hr, h⟩ := (mem_ts_hourGSlots v rows t).mp hg
      refine ⟨r, hr, r.timestamp.hour, (hvalid r hr).2.2.2.2.2.1, ?_⟩
      rw [← h, truncHour_eq_setHour]
    · obtain ⟨d, hd, h, hh, rfl, -⟩ :=
        (mem_ts_missingSlots _ t (shape_ts_hourGSlots v rows)
          (hour_lt_ts_hourGSlots v rows hvalid) (nodup_ts_hourGSlots v rows)).mp hm
      rw [daysList, List.mem_dedup, List.mem_map] at hd
      obtain ⟨s, hsg, rfl⟩ := hd
      obtain ⟨r, hr, hrts⟩ :=
        (mem_ts_hourGSlots v rows s.timestamp).mp (List.mem_map_of_mem _ hsg)
      refine ⟨r, hr, h, hh, ?_⟩
      rw [← hrts, truncDay_truncHour]
  · rintro ⟨r, hr, h, hh, rfl⟩
    by_cases hg : setHour (truncDay r.timestamp) h ∈
        (hourGSlots v rows).map (fun s => s.timestamp)
    · exact Or.inl hg
    · refine Or.inr ((mem_ts_missingSlots _ _ (shape_ts_hourGSlots v rows)
        (hour_lt_ts_hourGSlots v rows hvalid) (nodup_ts_hourGSlots v rows)).mpr ?_)
      refine ⟨truncDay r.timestamp, ?_, h, hh, rfl, hg⟩
      have hmem : truncHour r.timestamp ∈ (hourGSlots v rows).map (fun s => s.timestamp) :=
        (mem_ts_hourGSlots v rows _).mpr ⟨r, hr, rfl⟩
      obtain ⟨s, hsg, hsts⟩ := List.mem_map.mp hmem
      rw [daysList, List.mem_dedup, List.mem_map]
      exact ⟨s, hsg, by rw [hsts, truncDay_truncHour]⟩

/-- **C4 amended.** For every well-formed input, the hour-granularity output
contains exactly one slot per hour 0..23 of every calendar day **present in
the input** (not of every day spanned by the input's extremes: wholly absent
days are not synthesized), with no duplicate timestamps, sorted strictly
ascending by timestamp. -/
theorem C4_hourly_grid (v : Bool) (rows : List Row)
    (hvalid : ∀ r ∈ rows, ValidTs r.timestamp) :
    (∀ t, t ∈ (hourDf v rows).map (fun s => s.timestamp) ↔
        ∃ r ∈ rows, ∃ h, h < 24 ∧ t = setHour (truncDay r.timestamp) h) ∧
    ((hourDf v rows).map (fun s => s.timestamp)).Nodup ∧
    ((hourDf v rows).map (fun s => s.timestamp)).Pairwise
      (fun a b => tsKey a < tsKey b) := by
  have hts := map_ts_hourDf v rows
  have hmem : ∀ t, t ∈ (hourDf v rows).map (fun s => s.timestamp) ↔
      ∃ r ∈ rows, ∃ h, h < 24 ∧ t = setHour (truncDay r.timestamp) h := by
    intro t
    rw [hts]
    exact mem_ts_regularizeHour v rows t hvalid
  have hnd : ((hourDf v rows).map (fun s => s.timestamp)).Nodup := by
    rw [hts]
    exact nodup_ts_regularizeHour v rows hvalid
  have hvalid2 : ∀ t ∈ (hourDf v rows).map (fun s => s.timestamp), ValidTs t := by
    intro t ht
    obtain ⟨r, hr, h, hh, rfl⟩ := (hmem t).mp ht
    exact valid_setHour_truncDay r.timestamp h (hvalid r hr) hh
  have hpair_le : ((hourDf v rows).map (fun s => s.timestamp)).Pairwise tsLe := by
    rw [hts, regularizeHour, sortSlots]
    exact List.pairwise_map.mpr (List.sorted_insertionSort slotLe _)
  refine ⟨hmem, hnd, ?_⟩
  refine List.Pairwise.imp_of_mem ?_ (hpair_le.and hnd)
  intro a b ha hb hab
  obtain ⟨hle, hne⟩ := hab
  rcases Nat.lt_or_ge (tsKey a) (tsKey b) with hlt | hge
  · exact hlt
  · exact absurd (tsKey_inj a b (hvalid2 a ha) (hvalid2 b hb)
      (Nat.le_antisymm hle hge)) hne

/-- Witness for the amended C4 at a concrete one-reading input. -/
theorem C4_hourly_grid_witness :
    (∀ t, t ∈ (hourDf false c10rows).map (fun s => s.timestamp) ↔
        ∃ r ∈ c10rows, ∃ h, h < 24 ∧ t = setHour (truncDay r.timestamp) h) ∧
    ((hourDf false c10rows).map (fun s => s.timestamp)).Nodup ∧
    ((hourDf false c10rows).map (fun s => s.timestamp)).Pairwise
      (fun a b => tsKey a < tsKey b) :=
  C4_hourly_grid false c10rows (by decide)

/-! ### Values of the regularized hourly slots -/

/-- The value column of a present (non-synthesized) slot survives
interpolation and is scaled by `c`. -/
theorem slotVal_pipeline_of_getElem (S : List Slot) (i : Nat) (hi : i < S.length)
    (hnd : (S.map (fun s => s.timestamp)).Nodup) (f : Field) (q : ℚ)
    (hval : S[i].vals f = some q) (c : ℚ) :
    slotVal (scaleSlots c (interpolateDf S)) S[i].timestamp f = some (q * c) := by
  rw [slotVal_scaleSlots]
  have hiI : i < (interpolateDf S).length := by
    rw [length_interpolateDf]
    exact hi
  have hIi : (interpolateDf S)[i] =
      ⟨S[i].timestamp, fun f2 => interpAt (S.map (fun s => s.vals f2)) i⟩ := by
    have h2 := getElem?_interpolateDf S i hi
    rw [List.getElem?_eq_getElem hiI] at h2
    exact (Option.some.injEq _ _).mp h2
  have hndI : ((interpolateDf S).map (fun s => s.timestamp)).Nodup := by
    rw [map_ts_interpolateDf]
    exact hnd
  have hfind := find?_key_getElem (fun s : Slot => s.timestamp) (interpolateDf S) i hiI hndI
  rw [List.get_eq_getElem, hIi] at hfind
  rw [slotVal, hfind]
  have hcol : (S.map (fun s => s.vals f)).getD i none = some q := by
    rw [List.getD_eq_getElem?_getD,
      List.getElem?_eq_getElem (by rw [List.length_map]; exact hi)]
    rw [List.getElem_map]
    rw [hval]
    rfl
  show Option.map (fun q2 => q2 * c) (interpAt (S.map (fun s => s.vals f)) i) = some (q * c)
  rw [interpAt_of_some _ _ q hcol]
  rfl

/-- The value of the hour-granularity output at a present group key: twelve
times the mean of the deduplicated readings of that hour. -/
theorem slotVal_hourDf (v : Bool) (rows : List Row) (t : Timestamp) (f : Field)
    (hvalid : ∀ r ∈ rows, ValidTs r.timestamp)
    (ht : t ∈ groupKeys ((dropDuplicates rows).map truncRowHour)) :
    slotVal (hourDf v rows) t f =
      some (mean ((groupRows ((dropDuplicates rows).map truncRowHour) t).map
        (fun r => r.vals f)) * 12) := by
  have hG : hourGSlots v rows =
      (groupbyMeanTs ((dropDuplicates rows).map truncRowHour)).map rowToSlot := by
    rw [hourGSlots, mapV_eq]
  have hmemG : rowToSlot ⟨t, fun f2 =>
      mean ((groupRows ((dropDuplicates rows).map truncRowHour) t).map
        (fun r => r.vals f2))⟩ ∈ hourGSlots v rows := by
    rw [hG]
    exact List.mem_map_of_mem _ (by rw [groupbyMeanTs]; exact List.mem_map_of_mem _ ht)
  have hmemS : rowToSlot ⟨t, fun f2 =>
      mean ((groupRows ((dropDuplicates rows).map truncRowHour) t).map
        (fun r => r.vals f2))⟩ ∈ regularizeHour v rows := by
    rw [regularizeHour, sortSlots, List.mem_insertionSort]
    exact List.mem_append_left _ hmemG
  obtain ⟨i, hi, hieq⟩ := List.getElem_of_mem hmemS
  have hndS := nodup_ts_regularizeHour v rows hvalid
  have := slotVal_pipeline_of_getElem (regularizeHour v rows) i hi hndS f
    (mean ((groupRows ((dropDuplicates rows).map truncRowHour) t).map
      (fun r => r.vals f))) (by rw [hieq]; rfl) 12
  rw [hieq] at this
  rw [hourDf]
  exact this

/-! ### Partition of a day into its 24 hours -/

theorem length_eq_sum_ones (l : List Row) : l.length = (l.map (fun _ => (1 : ℕ))).sum := by
  induction l with
  | nil => rfl
  | cons a rest ih =>
    rw [List.length_cons, List.map_cons, List.sum_cons, ih]
    omega

/-- Splitting a filtered sum along a partition of the filter predicate into
`n` mutually exclusive cases. -/
theorem filter_partition_sum {M : Type} [AddCommMonoid M] (l : List Row)
    (Pd : Row → Prop) (Ph : Nat → Row → Prop) [DecidablePred Pd]
    [∀ h, DecidablePred (Ph h)] (g : Row → M) (n : Nat)
    (huniq : ∀ a ∈ l, ∀ h1 h2, Ph h1 a → Ph h2 a → h1 = h2)
    (hiff : ∀ a ∈ l, (Pd a ↔ ∃ h, h < n ∧ Ph h a)) :
    ((l.filter (fun a => Pd a)).map g).sum =
      ∑ h ∈ Finset.range n, ((l.filter (fun a => Ph h a)).map g).sum := by
  induction l with
  | nil => simp
  | cons a rest ih =>
    have ih2 := ih (fun x hx => huniq x (List.mem_cons_of_mem a hx))
      (fun x hx => hiff x (List.mem_cons_of_mem a hx))
    by_cases hPd : Pd a
    · obtain ⟨h0, hh0, hPh0⟩ := (hiff a (List.mem_cons_self a rest)).mp hPd
      have hsplit : ∀ h, (((a :: rest).filter (fun x => Ph h x)).map g).sum =
          (if h = h0 then g a else 0) +
            ((rest.filter (fun x => Ph h x)).map g).sum := by
        intro h
        rw [List.filter_cons]
        by_cases hh : Ph h a
        · have he : h = h0 := huniq a (List.mem_cons_self a rest) h h0 hh hPh0
          subst he
          rw [if_pos (decide_eq_true hh), if_pos rfl]
          simp
        · rw [if_neg (fun hc => hh (of_decide_eq_true hc)),
            if_neg (fun hcon => hh (by rw [hcon]; exact hPh0))]
          simp
      rw [List.filter_cons, if_pos (decide_eq_true hPd), List.map_cons, List.sum_cons, ih2,
        Finset.sum_congr rfl (fun h _ => hsplit h), Finset.sum_add_distrib,
        Finset.sum_ite_eq' (Finset.range n) h0 (fun _ => g a),
        if_pos (Finset.mem_range.mpr hh0)]
    · have hnone : ∀ h, h < n → (((a :: rest).filter (fun x => Ph h x)).map g).sum =
          ((rest.filter (fun x => Ph h x)).map g).sum := by
        intro h hhn
        rw [List.filter_cons]
        by_cases hh : Ph h a
        · exact absurd ((hiff a (List.mem_cons_self a rest)).mpr ⟨h, hhn, hh⟩) hPd
        · rw [if_neg (fun hc => hh (of_decide_eq_true hc))]
      rw [List.filter_cons, if_neg (fun hc => hPd (of_decide_eq_true hc)), ih2]
      exact Finset.sum_congr rfl (fun h hmem => (hnone h (Finset.mem_range.mp hmem)).symm)

/-- **C1 amended.** For a well-formed input and a calendar day `d` each of
whose 24 hours carries the **same positive number** of deduplicated readings,
the day-granularity bucket of `d` equals, per field, the sum of the 24
hourly-slot values of `d` in the hour-granularity output. (For uneven or
missing hours the two differ: the day bucket is the raw mean × 288.) -/
theorem C1_day_equals_hour_sum (v : Bool) (rows : List Row) (d : Timestamp) (k : Nat)
    (f : Field)
    (hvalid : ∀ r ∈ rows, ValidTs r.timestamp)
    (hd : truncDay d = d)
    (hk : 0 < k)
    (hcnt : ∀ h, h < 24 → ((dropDuplicates rows).filter
      (fun r => truncHour r.timestamp = setHour d h)).length = k) :
    ∃ q : ℚ,
      bucketVal (dayDf v rows) d f = some q ∧
      (∀ h, h < 24 → (slotVal (hourDf v rows) (setHour d h) f).isSome = true) ∧
      q = ∑ h ∈ Finset.range 24,
        (slotVal (hourDf v rows) (setHour d h) f).getD 0 := by
  have hd0 : d.hour = 0 ∧ d.minute = 0 ∧ d.second = 0 :=
    ⟨(congrArg Timestamp.hour hd).symm, (congrArg Timestamp.minute hd).symm,
      (congrArg Timestamp.second hd).symm⟩
  have huniq : ∀ r ∈ dropDuplicates rows, ∀ h1 h2,
      truncHour r.timestamp = setHour d h1 → truncHour r.timestamp = setHour d h2 →
        h1 = h2 := by
    intro r _ h1 h2 hp1 hp2
    exact congrArg Timestamp.hour (hp1.symm.trans hp2)
  have hiff : ∀ r ∈ dropDuplicates rows,
      (truncDay r.timestamp = d ↔ ∃ h, h < 24 ∧ truncHour r.timestamp = setHour d h) := by
    intro r hr
    have hrv := hvalid r ((mem_dropDuplicates rows r).mp hr)
    constructor
    · intro hPd
      exact ⟨r.timestamp.hour, hrv.2.2.2.2.2.1, by rw [truncHour_eq_setHour, hPd]⟩
    · rintro ⟨h, _, hPh⟩
      have h2 : truncDay r.timestamp = truncDay (setHour d h) := by
        rw [← hPh, truncDay_truncHour]
      rw [h2, truncDay_setHour d h hd0]
  have hdkey : d ∈ groupKeys ((dropDuplicates rows).map truncRowDay) := by
    have hpos : 0 < ((dropDuplicates rows).filter
        (fun r => truncHour r.timestamp = setHour d 0)).length := by
      rw [hcnt 0 (by omega)]
      exact hk
    obtain ⟨r0, hr0⟩ := List.exists_mem_of_length_pos hpos
    rw [List.mem_filter] at hr0
    rw [mem_keys_map_trunc]
    refine ⟨r0, hr0.1, ?_⟩
    exact (hiff r0 hr0.1).mpr ⟨0, by omega, of_decide_eq_true hr0.2⟩
  have hbucket : bucketVal (dayDf v rows) d f =
      some (mean (((dropDuplicates rows).filter
        (fun r => truncDay r.timestamp = d)).map (fun r => r.vals f)) * (12 * 24)) := by
    rw [dayDf, dayLevel, mapV_eq,
      bucket_of_trunc_pipeline truncRowDay (dropDuplicates rows) (12 * 24) d f hdkey]
    rfl
  have hslot : ∀ h, h < 24 → slotVal (hourDf v rows) (setHour d h) f =
      some (mean (((dropDuplicates rows).filter
        (fun r => truncHour r.timestamp = setHour d h)).map (fun r => r.vals f)) * 12) := by
    intro h hh
    have hpos : 0 < ((dropDuplicates rows).filter
        (fun r => truncHour r.timestamp = setHour d h)).length := by
      rw [hcnt h hh]
      exact hk
    obtain ⟨r1, hr1⟩ := List.exists_mem_of_length_pos hpos
    rw [List.mem_filter] at hr1
    have hkey : setHour d h ∈ groupKeys ((dropDuplicates rows).map truncRowHour) := by
      rw [mem_keys_map_trunc]
      exact ⟨r1, hr1.1, of_decide_eq_true hr1.2⟩
    rw [slotVal_hourDf v rows (setHour d h) f hvalid hkey, groupRows_map_trunc,
      List.map_map]
    rfl
  have hsum := filter_partition_sum (dropDuplicates rows)
    (fun r => truncDay r.timestamp = d)
    (fun h r => truncHour r.timestamp = setHour d h) (fun r => r.vals f) 24 huniq hiff
  have hlen := filter_partition_sum (M := ℕ) (dropDuplicates rows)
    (fun r => truncDay r.timestamp = d)
    (fun h r => truncHour r.timestamp = setHour d h) (fun _ => 1) 24 huniq hiff
  have hN : ((dropDuplicates rows).filter
      (fun r => truncDay r.timestamp = d)).length = 24 * k := by
    rw [length_eq_sum_ones, hlen,
      Finset.sum_congr rfl (fun h _ => (length_eq_sum_ones _).symm),
      Finset.sum_congr rfl (fun h hm => hcnt h (Finset.mem_range.mp hm))]
    simp
  refine ⟨_, hbucket, fun h hh => by rw [hslot h hh]; rfl, ?_⟩
  have hgetD : ∀ h ∈ Finset.range 24,
      (slotVal (hourDf v rows) (setHour d h) f).getD 0 =
        mean (((dropDuplicates rows).filter
          (fun r => truncHour r.timestamp = setHour d h)).map (fun r => r.vals f)) * 12 :=
    fun h hm => by rw [hslot h (Finset.mem_range.mp hm)]; rfl
  rw [Finset.sum_congr rfl hgetD]
  have hsum2 : (((dropDuplicates rows).filter
      (fun r => truncDay r.timestamp = d)).map (fun r => r.vals f)).sum =
      ∑ h ∈ Finset.range 24, (((dropDuplicates rows).filter
        (fun r => truncHour r.timestamp = setHour d h)).map (fun r => r.vals f)).sum :=
    hsum
  have hk0 : ((k : ℚ)) ≠ 0 := Nat.cast_ne_zero.mpr (by omega)
  have hlh : ∀ h ∈ Finset.range 24,
      mean (((dropDuplicates rows).filter
        (fun r => truncHour r.timestamp = setHour d h)).map (fun r => r.vals f)) * 12 =
      (((dropDuplicates rows).filter
        (fun r => truncHour r.timestamp = setHour d h)).map (fun r => r.vals f)).sum *
        (12 / (k : ℚ)) := by
    intro h hm
    simp only [mean]
    rw [List.length_map, hcnt h (Finset.mem_range.mp hm)]
    ring
  rw [Finset.sum_congr rfl hlh, ← Finset.sum_mul, ← hsum2]
  simp only [mean]
  rw [List.length_map, hN]
  push_cast
  field_simp
  ring

/-- Witness for the amended C1: a fully regular day (one reading per hour,
value 2) where the day bucket equals the sum of the 24 hourly slots. -/
theorem C1_day_equals_hour_sum_witness :
    ∃ q : ℚ,
      bucketVal (dayDf false rows24) ⟨2013, 1, 1, 0, 0, 0⟩ Field.coal = some q ∧
      (∀ h, h < 24 →
        (slotVal (hourDf false rows24) (setHour ⟨2013, 1, 1, 0, 0, 0⟩ h)
          Field.coal).isSome = true) ∧
      q = ∑ h ∈ Finset.range 24,
        (slotVal (hourDf false rows24) (setHour ⟨2013, 1, 1, 0, 0, 0⟩ h)
          Field.coal).getD 0 :=
  C1_day_equals_hour_sum false rows24 ⟨2013, 1, 1, 0, 0, 0⟩ 1 Field.coal
    (by decide) (by decide) (by decide) (by decide)

end EnergyTS
